import Mathlib

/-!
Shallow embedding of `src/gaming_assistant.py` (the voice-driven reminder
assistant).  Text is modelled as `List Char`; timestamps are modelled as `Int`
seconds (the code's `datetime` values, idealized to whole seconds, with the
two back-to-back `datetime.now()` reads inside one operation modelled as one
logical instant — the same idealization the design document uses when it
speaks of a single current time `now`).

The Python regular expressions used by the source are embedded by hand with
their exact matching semantics for the concrete patterns involved
(left-to-right scan, alternation order, greedy/lazy repetition as each
pattern requires).  `.` in those patterns does not match a newline and
Python's `str.lower()` agrees with `Char.toLower` on ASCII; recognized
speech is newline-free ASCII, and theorems that quantify over command text
carry this domain assumption as the explicit `plainText` hypothesis.
-/

/-- Converts a string literal to the `List Char` representation used
throughout the embedding. -/
def chars (s : String) : List Char := s.data

/-- The apostrophe character (code point 39), used in one feedback
utterance of the source. -/
def apos : Char := Char.ofNat 39

/-- Python `s.lower()` on ASCII text: lowercase every character. -/
def lowerStr (s : List Char) : List Char := s.map Char.toLower

/-- Domain of the embedding: ASCII text with no newline, the shape of every
recognized-speech transcript.  On this domain Python's `str.lower()` and
`re.IGNORECASE` coincide with `Char.toLower`, and `.` in the source's
regular expressions matches every character. -/
def plainText (s : List Char) : Bool :=
  s.all (fun c => c.toNat < 128 && !(c == '\n'))

/-- Boolean test that `n` is a prefix of `h` (Python `h.startswith(n)`). -/
def isPrefixB : List Char → List Char → Bool
  | [], _ => true
  | _ :: _, [] => false
  | a :: as, b :: bs => a == b && isPrefixB as bs

/-- Boolean substring test, Python's `n in h` on strings. -/
def containsB (n : List Char) : List Char → Bool
  | [] => isPrefixB n []
  | h@(_ :: rest) => isPrefixB n h || containsB n rest

/-- Case-insensitive literal match at the head of `s`: if the pattern `p`
matches the first `p.length` characters of `s` up to ASCII case, return the
remainder of `s`.  This is the building block for the source's
`re.IGNORECASE` patterns. -/
def dropPrefixCI : List Char → List Char → Option (List Char)
  | [], s => some s
  | _ :: _, [] => none
  | p :: ps, c :: cs => if p.toLower == c.toLower then dropPrefixCI ps cs else none

/-- Numeric value of a digit string (Python `int` on a `\d+` capture). -/
def digitsToNat (ds : List Char) : Nat :=
  ds.foldl (fun acc c => 10 * acc + (c.toNat - 48)) 0

/-- Greedy `(\d+)` at the head of `s`: the maximal run of digits and the
remainder.  Fails when `s` does not start with a digit. -/
def matchNum (s : List Char) : Option (Nat × List Char) :=
  let ds := s.takeWhile Char.isDigit
  if ds.isEmpty then none else some (digitsToNat ds, s.dropWhile Char.isDigit)

/-- One anchored attempt of `kw(\d+) minutes?` at the head of `s`
(case-insensitively), where `kw` is `"in "` or `"after "`.  The pattern's
greedy `\d+` must be followed by a literal space, so the maximal digit run
is the only possible match; the optional trailing `s` does not affect the
captured number.  Returns the captured minute count. -/
def timeAnchored (kw s : List Char) : Option Nat :=
  match dropPrefixCI kw s with
  | none => none
  | some r1 =>
    match matchNum r1 with
    | none => none
    | some (n, r2) =>
      match dropPrefixCI (chars " minute") r2 with
      | none => none
      | some _ => some n

/-- One anchored attempt of `(?:in|after) (\d+) minutes?` at a given
position, trying the alternatives in the pattern's order (the two keywords
can never both match at one position, so the order is immaterial). -/
def matchTimeAt (s : List Char) : Option Nat :=
  match timeAnchored (chars "in ") s with
  | some n => some n
  | none => timeAnchored (chars "after ") s

/-- `re.search(r'(?:in|after) (\d+) minutes?', text, re.IGNORECASE)`
(source line 346): scan left to right, return the first captured minute
count.  The pattern cannot match the empty string, so the empty-text case
is `none`. -/
def searchTime : List Char → Option Nat
  | [] => none
  | s@(_ :: rest) =>
    match matchTimeAt s with
    | some n => some n
    | none => searchTime rest

/-- One anchored attempt of `(?:remind me|set reminder) (?:to )?`
(case-insensitively): either keyword followed by a space, then the greedy
optional `to `.  Used by the time-branch prefix strip (source line 353). -/
def matchRemindPrefixAt (s : List Char) : Option (List Char) :=
  match
    (match dropPrefixCI (chars "remind me ") s with
     | some r => some r
     | none => dropPrefixCI (chars "set reminder ") s) with
  | none => none
  | some rest =>
    match dropPrefixCI (chars "to ") rest with
    | some r2 => some r2
    | none => some rest

/-- Leftmost match of the lazy pattern `.*?(?:remind me|set reminder)
(?:to )?`: the lazy `.*?` makes the match end at the first occurrence of
the keyword part; everything up to and including that occurrence is
removed, so the remainder after the occurrence is returned. -/
def dropThroughRemind : List Char → Option (List Char)
  | [] => none
  | s@(_ :: rest) =>
    match matchRemindPrefixAt s with
    | some r => some r
    | none => dropThroughRemind rest

/-- Fuel-indexed iteration of `dropThroughRemind`, mirroring `re.sub`'s
replace-all behaviour: after one match is deleted, scanning resumes on the
remainder.  Every successful step consumes at least the ten characters of
`remind me `, so `s.length` steps of fuel always suffice to reach the
first failing scan. -/
def stripLoop : Nat → List Char → List Char
  | 0, s => s
  | Nat.succ f, s =>
    match dropThroughRemind s with
    | none => s
    | some r => stripLoop f r

/-- `re.sub(r'.*?(?:remind me|set reminder) (?:to )?', '', text,
flags=re.IGNORECASE)` (source line 353). -/
def stripRemindPrefixAll (s : List Char) : List Char := stripLoop s.length s

/-- `re.sub(r'(?:in|after) \d+ minutes?.*', '', reminder_text,
flags=re.IGNORECASE)` (source line 354): the trailing greedy `.*` runs to
the end of the (newline-free) text, so the substitution deletes everything
from the leftmost occurrence of the time pattern onward. -/
def stripTimeSuffix : List Char → List Char
  | [] => []
  | s@(c :: rest) =>
    match matchTimeAt s with
    | some _ => []
    | none => c :: stripTimeSuffix rest

/-- Python `str.strip()`: remove leading and trailing whitespace. -/
def pyStrip (s : List Char) : List Char :=
  ((s.dropWhile Char.isWhitespace).reverse.dropWhile Char.isWhitespace).reverse

/-- One anchored attempt of `remind me (to )?` (case-insensitively),
used by the greedy event/resource-branch prefix strip (source line 366). -/
def matchRemindMeAt (s : List Char) : Option (List Char) :=
  match dropPrefixCI (chars "remind me ") s with
  | none => none
  | some rest =>
    match dropPrefixCI (chars "to ") rest with
    | some r2 => some r2
    | none => some rest

/-- Remainder after the rightmost occurrence of `remind me (to )?`: the
greedy `.*` in `.*remind me (to )?` makes the single match of the
substitution run through the last occurrence of `remind me `. -/
def lastRemindTail : List Char → Option (List Char)
  | [] => none
  | s@(_ :: rest) =>
    match lastRemindTail rest with
    | some r => some r
    | none => matchRemindMeAt s

/-- `re.sub(r'.*remind me (to )?', '', text, flags=re.IGNORECASE)`
(source line 366): drop everything through the last `remind me (to )?`
occurrence; texts without the phrase are left unchanged. -/
def stripGreedyRemindMe (s : List Char) : List Char :=
  match lastRemindTail s with
  | some r => r
  | none => s

/-- One anchored attempt of `clear reminder (about )?` (case-insensitively),
used by `clear_specific_reminder`'s keyword extraction (source line 402). -/
def matchClearRemAt (s : List Char) : Option (List Char) :=
  match dropPrefixCI (chars "clear reminder ") s with
  | none => none
  | some rest =>
    match dropPrefixCI (chars "about ") rest with
    | some r2 => some r2
    | none => some rest

/-- Remainder after the rightmost occurrence of `clear reminder (about )?`
(the pattern `.*clear reminder (about )?` has a greedy `.*`). -/
def lastClearTail : List Char → Option (List Char)
  | [] => none
  | s@(_ :: rest) =>
    match lastClearTail rest with
    | some r => some r
    | none => matchClearRemAt s

/-- `re.sub(r'.*clear reminder (about )?', '', text, flags=re.IGNORECASE)`
(source line 402), before the final `.strip()`. -/
def clearKeywordRaw (s : List Char) : List Char :=
  match lastClearTail s with
  | some r => r
  | none => s

/-- The search keyword extracted by `clear_specific_reminder`
(source line 402), including the trailing `.strip()`. -/
def clearKeyword (s : List Char) : List Char := pyStrip (clearKeywordRaw s)

/-- `Reminder.__init__` (source lines 33-39): `reminder_type` is one of
`"time"`, `"resource"`, `"event"`; `trigger_time` defaults to `None`;
`created_at` records the construction instant. -/
structure Reminder where
  text : List Char
  reminder_type : String
  trigger_time : Option Int
  created_at : Int
deriving DecidableEq, Repr

/-- The intent resolved by `process_command` (source lines 313-338); the
clear-specific and add handlers receive the original (un-lowercased)
utterance. -/
inductive Intent where
  | listReminders
  | clearAll
  | clearSpecific (text : List Char)
  | addReminder (text : List Char)
  | unrecognized
deriving DecidableEq, Repr

/-- `pat in text.lower()` for a lowercase literal `pat`
(source lines 321-334). -/
def saysB (text pat : List Char) : Bool := containsB pat (lowerStr text)

/-- `GamingAssistant.process_command` (source lines 313-338): route the
utterance through the if/elif chain, first match wins. -/
def process_command (text : List Char) : Intent :=
  if saysB text (chars "list") && saysB text (chars "reminder") then .listReminders
  else if saysB text (chars "clear all") then .clearAll
  else if saysB text (chars "clear") && saysB text (chars "reminder") then .clearSpecific text
  else if saysB text (chars "remind") then .addReminder text
  else .unrecognized

/-- The resource keyword set of `add_reminder` (source line 369). -/
def resourceKeywords : List (List Char) :=
  [chars "gold", chars "wood", chars "food", chars "iron", chars "stone", chars "resource"]

/-- `GamingAssistant.add_reminder` (source lines 340-379), reduced to its
store-independent core: from the utterance and the current time, the
constructed `Reminder` and the feedback utterance passed to `speak`.
The caller appends the reminder to the store (lines 360/376). -/
def add_reminder (now : Int) (text : List Char) : Reminder × List Char :=
  match searchTime text with
  | some minutes =>
    let trigger_time : Int := now + 60 * (minutes : Int)
    let reminder_text := pyStrip (stripTimeSuffix (stripRemindPrefixAll text))
    (⟨reminder_text, "time", some trigger_time, now⟩,
     chars "Reminder set for " ++ (Nat.repr minutes).data ++ chars " minutes: " ++ reminder_text)
  | none =>
    let reminder_text := pyStrip (stripGreedyRemindMe text)
    if resourceKeywords.any (fun w => containsB w (lowerStr reminder_text)) then
      (⟨reminder_text, "resource", none, now⟩,
       chars "Resource reminder set: " ++ reminder_text ++ chars ". Say " ++ [apos]
         ++ chars "trigger" ++ [apos] ++ chars " to activate.")
    else
      (⟨reminder_text, "event", none, now⟩,
       chars "Event reminder set: " ++ reminder_text)

/-- The match test of `clear_specific_reminder`'s loop
(source line 406): `keywords.lower() in reminder.text.lower()`. -/
def matchesKw (kw : List Char) (r : Reminder) : Bool :=
  containsB (lowerStr kw) (lowerStr r.text)

/-- The removal loop of `clear_specific_reminder` (source lines 405-413):
remove the first reminder in store order whose text contains the keyword
and report it; with no match the store is untouched. -/
def clearLoop (kw : List Char) : List Reminder → List Reminder × List Char
  | [] => ([], chars "No matching reminder found.")
  | r :: rest =>
    if matchesKw kw r then (rest, chars "Cleared reminder: " ++ r.text)
    else
      let (rest2, u) := clearLoop kw rest
      (r :: rest2, u)

/-- `GamingAssistant.clear_specific_reminder` (source lines 399-413):
the resulting store and the spoken feedback. -/
def clear_specific_reminder (reminders : List Reminder) (text : List Char) :
    List Reminder × List Char :=
  clearLoop (clearKeyword text) reminders

/-- The removal condition of `check_timers` (source lines 444-445):
a time reminder with a set trigger whose deadline has arrived
(`now >= trigger_time`). -/
def dueB (now : Int) (r : Reminder) : Bool :=
  r.reminder_type == "time" &&
    (match r.trigger_time with
     | some t => decide (t ≤ now)
     | none => false)

/-- `GamingAssistant.check_timers` (source lines 439-454), reduced to its
store transformation: the loop iterates over a copy of the list and removes
each due reminder from the live list; removal is by object identity and
every stored reminder is a distinct object, so one sweep keeps exactly the
non-due reminders in their original order. -/
def check_timers (now : Int) (reminders : List Reminder) : List Reminder :=
  reminders.filter (fun r => !dueB now r)

/-- `str.capitalize()`: first character uppercased, the rest lowercased. -/
def pyCapitalize (s : String) : List Char :=
  match s.data with
  | [] => []
  | c :: rest => c.toUpper :: rest.map Char.toLower

/-- One line of `list_reminders_voice`'s readback (source lines 391-397),
for the reminder at (1-based) position `i`. -/
def reminderLine (now : Int) (i : Nat) (r : Reminder) : List Char :=
  match r.reminder_type == "time", r.trigger_time with
  | true, some t =>
    (Nat.repr i).data ++ chars ". In " ++ (Int.repr (Int.tdiv (t - now) 60)).data
      ++ chars " minutes: " ++ r.text
  | _, _ =>
    (Nat.repr i).data ++ chars ". " ++ pyCapitalize r.reminder_type ++ chars ": " ++ r.text

/-- `GamingAssistant.list_reminders_voice` (source lines 381-397): the
sequence of utterances spoken, in order.  The minutes-remaining figure is
Python's `int(time_left.total_seconds() / 60)`, i.e. the division
`(trigger_time - now) / 60` truncated toward zero (`Int.tdiv`). -/
def list_reminders_voice (now : Int) (reminders : List Reminder) : List (List Char) :=
  if reminders = [] then [chars "You have no reminders."]
  else
    (chars "You have " ++ (Nat.repr reminders.length).data ++ chars " reminder"
       ++ (if reminders.length > 1 then chars "s" else []) ++ chars ".")
      :: reminders.enum.map (fun p => reminderLine now (p.1 + 1) p.2)

/-- The shared game-detection state mutated by `update_game_status`
(source lines 75-76). -/
structure GameStatus where
  current_game : List Char
  game_mode_active : Bool
deriving DecidableEq, Repr

/-- `GamingAssistant.update_game_status` (source lines 552-560): overwrite
both the activity label and the focus flag with the caller's values. -/
def update_game_status (st : GameStatus) (game_name : List Char) (is_civ6 : Bool) :
    GameStatus :=
  { st with current_game := game_name, game_mode_active := is_civ6 }

/-- Outcome of one Steam status fetch as discriminated by `poll_steam_api`
(source lines 522-547): a player payload (with or without a
`gameextrainfo` field), a payload without players, a request exception, or
any other exception (whose message the code truncates to 30 characters). -/
inductive FetchResult where
  | player (gameextrainfo : Option (List Char))
  | noPlayers
  | requestError
  | otherError (msg : List Char)
deriving DecidableEq, Repr

/-- One cycle of `poll_steam_api`'s body (source lines 527-547): every
branch — success and failure alike — funnels into `update_game_status`
with an explicit `is_civ6` argument; the game-name test on success is the
case-sensitive Python `in` (source line 535). -/
def poll_steam_api_step (st : GameStatus) (res : FetchResult) : GameStatus :=
  match res with
  | .player (some name) =>
    update_game_status st name
      (containsB (chars "Civilization VI") name || containsB (chars "Civ VI") name)
  | .player none => update_game_status st (chars "No game running") false
  | .noPlayers => update_game_status st (chars "API error - check credentials") false
  | .requestError => update_game_status st (chars "Steam API unreachable") false
  | .otherError m => update_game_status st (chars "Error: " ++ m.take 30) false

/-- The persisted configuration document (source lines 26-31). -/
structure Config where
  steam_api_key : List Char
  steam_id : List Char
  reminders : List Reminder
deriving DecidableEq, Repr

/-- `DEFAULT_CONFIG` (source lines 27-31). -/
def defaultConfig : Config := ⟨[], [], []⟩

/-- Outcome of reading the config file at startup: missing file, a read or
parse failure, or a successfully parsed document. -/
inductive LoadOutcome where
  | absent
  | readError
  | ok (cfg : Config)
deriving DecidableEq, Repr

/-- `GamingAssistant.load_config` (source lines 107-115): a missing file
yields the default document, and any exception while reading or parsing is
caught and also yields the default document — startup never aborts. -/
def load_config : LoadOutcome → Config
  | .absent => defaultConfig
  | .readError => defaultConfig
  | .ok cfg => cfg

/-- Outcome of the file write performed by `save_config`. -/
inductive WriteOutcome where
  | ok
  | ioError (msg : List Char)
deriving DecidableEq, Repr

/-- `GamingAssistant.save_config` (source lines 117-128): the write is not
wrapped in any exception handler, so a failing write propagates to the
caller as-is. -/
def save_config : WriteOutcome → Except (List Char) Unit
  | .ok => .ok ()
  | .ioError m => .error m

/-- The mutation-then-persist shape of `add_reminder` at the store level
(source lines 360/376 then 379): the reminder is appended to the in-memory
store before `save_config` runs, so the append stands whatever the write
outcome; the second component is the control outcome of the save. -/
def add_reminder_op (now : Int) (text : List Char) (store : List Reminder)
    (w : WriteOutcome) : List Reminder × Except (List Char) Unit :=
  (store ++ [(add_reminder now text).1], save_config w)

/-! ### Substring infrastructure -/

theorem isPrefixB_iff (n : List Char) : ∀ h : List Char,
    isPrefixB n h = true ↔ ∃ t, h = n ++ t := by
  induction n with
  | nil =>
    intro h
    simp [isPrefixB]
  | cons a as ih =>
    intro h
    cases h with
    | nil => simp [isPrefixB]
    | cons b bs =>
      simp only [isPrefixB, Bool.and_eq_true, beq_iff_eq, ih, List.cons_append,
        List.cons.injEq]
      constructor
      · rintro ⟨rfl, t, rfl⟩
        exact ⟨t, rfl, rfl⟩
      · rintro ⟨t, rfl, rfl⟩
        exact ⟨rfl, t, rfl⟩

theorem containsB_iff (n : List Char) : ∀ h : List Char,
    containsB n h = true ↔ ∃ a b, h = a ++ n ++ b := by
  intro h
  induction h with
  | nil =>
    simp only [containsB, isPrefixB_iff]
    constructor
    · rintro ⟨t, ht⟩
      exact ⟨[], t, ht⟩
    · rintro ⟨a, b, hab⟩
      rcases List.append_eq_nil.mp hab.symm with ⟨h1, h2⟩
      rcases List.append_eq_nil.mp h1 with ⟨rfl, rfl⟩
      exact ⟨[], by simp⟩
  | cons c rest ih =>
    simp only [containsB, Bool.or_eq_true, isPrefixB_iff, ih]
    constructor
    · rintro (⟨t, ht⟩ | ⟨a, b, hab⟩)
      · exact ⟨[], t, by simp [ht]⟩
      · exact ⟨c :: a, b, by simp [hab]⟩
    · rintro ⟨a, b, hab⟩
      cases a with
      | nil =>
        left
        exact ⟨b, by simpa using hab⟩
      | cons x xs =>
        right
        refine ⟨xs, b, ?_⟩
        have := hab
        simp only [List.cons_append, List.cons.injEq] at this
        exact this.2

theorem containsB_trans (m n h : List Char) (h1 : containsB m n = true)
    (h2 : containsB n h = true) : containsB m h = true := by
  rcases (containsB_iff m n).mp h1 with ⟨a, b, rfl⟩
  rcases (containsB_iff _ h).mp h2 with ⟨c, d, rfl⟩
  exact (containsB_iff m _).mpr ⟨c ++ a, b ++ d, by simp⟩

theorem dropPrefixCI_sound (p : List Char) : ∀ s r : List Char,
    dropPrefixCI p s = some r → lowerStr s = lowerStr p ++ lowerStr r := by
  induction p with
  | nil =>
    intro s r hs
    simp only [dropPrefixCI, Option.some.injEq] at hs
    simp [hs, lowerStr]
  | cons p ps ih =>
    intro s r hs
    cases s with
    | nil => simp [dropPrefixCI] at hs
    | cons c cs =>
      simp only [dropPrefixCI] at hs
      by_cases hc : p.toLower == c.toLower
      · rw [if_pos hc] at hs
        have hlow := ih cs r hs
        simp only [lowerStr, List.map_cons, List.cons_append] at hlow ⊢
        rw [← beq_iff_eq.mp hc]
        exact congrArg _ hlow
      · rw [if_neg hc] at hs
        exact absurd hs (by simp)

theorem clearLoop_fst_eraseP (kw : List Char) : ∀ rs : List Reminder,
    (clearLoop kw rs).1 = rs.eraseP (matchesKw kw) := by
  intro rs
  induction rs with
  | nil => rfl
  | cons r rest ih =>
    by_cases hr : matchesKw kw r
    · simp [clearLoop, List.eraseP_cons, hr]
    · simp [clearLoop, List.eraseP_cons, hr, ih]

theorem clearLoop_length (kw : List Char) : ∀ rs : List Reminder,
    (clearLoop kw rs).1.length = rs.length ∨
      (clearLoop kw rs).1.length + 1 = rs.length := by
  intro rs
  induction rs with
  | nil => exact Or.inl rfl
  | cons r rest ih =>
    by_cases hr : matchesKw kw r
    · simp [clearLoop, hr]
    · rcases ih with h | h
      · exact Or.inl (by simp [clearLoop, hr, h])
      · exact Or.inr (by simp [clearLoop, hr]; omega)

theorem clearLoop_no_match (kw : List Char) : ∀ rs : List Reminder,
    (∀ r ∈ rs, matchesKw kw r = false) →
      clearLoop kw rs = (rs, chars "No matching reminder found.") := by
  intro rs
  induction rs with
  | nil => intro _; rfl
  | cons r rest ih =>
    intro hall
    have hr : matchesKw kw r = false := hall r (by simp)
    have htl := ih (fun x hx => hall x (by simp [hx]))
    simp [clearLoop, hr, htl]

theorem dueB_iff (now : Int) (r : Reminder) :
    dueB now r = true ↔
      r.reminder_type = "time" ∧ ∃ t, r.trigger_time = some t ∧ t ≤ now := by
  unfold dueB
  cases htr : r.trigger_time with
  | none => simp
  | some t => simp [beq_iff_eq]

theorem matchClearRemAt_some (s r : List Char) (hm : matchClearRemAt s = some r) :
    containsB (chars "clear reminder") (lowerStr s) = true := by
  have hdrop : ∃ rest, dropPrefixCI (chars "clear reminder ") s = some rest := by
    unfold matchClearRemAt at hm
    cases hd : dropPrefixCI (chars "clear reminder ") s with
    | none => rw [hd] at hm; exact absurd hm (by simp)
    | some rest => exact ⟨rest, rfl⟩
  rcases hdrop with ⟨rest, hd⟩
  have hs := dropPrefixCI_sound _ s rest hd
  have hpat : lowerStr (chars "clear reminder ") = chars "clear reminder" ++ [' '] := by decide
  rw [hpat] at hs
  exact (containsB_iff _ _).mpr ⟨[], ' ' :: lowerStr rest, by simpa using hs⟩

theorem lastClearTail_contains : ∀ s r : List Char, lastClearTail s = some r →
    containsB (chars "clear reminder") (lowerStr s) = true := by
  intro s
  induction s with
  | nil => intro r hr; exact absurd hr (by simp [lastClearTail])
  | cons c rest ih =>
    intro r hr
    simp only [lastClearTail] at hr
    cases hlast : lastClearTail rest with
    | some r2 =>
      have := ih r2 hlast
      simp only [lowerStr, List.map_cons, containsB, Bool.or_eq_true]
      right
      simpa [lowerStr] using this
    | none =>
      rw [hlast] at hr
      exact matchClearRemAt_some _ _ hr

theorem tdiv_eq_fdiv_of_nonneg (a b : Int) (ha : 0 ≤ a) (hb : 0 ≤ b) :
    Int.tdiv a b = Int.fdiv a b := by
  cases a with
  | ofNat m =>
    cases b with
    | ofNat n =>
      cases m with
      | zero =>
        show Int.ofNat (0 / n) = _
        rw [Nat.zero_div]
        rfl
      | succ m => rfl
    | negSucc n => exact absurd hb (not_le.mpr (Int.negSucc_lt_zero n))
  | negSucc m => exact absurd ha (not_le.mpr (Int.negSucc_lt_zero m))

/-! ### Claims -/

/-- Claim C1: `process_command` resolves intents in the fixed priority
order — (1) "list" and "reminder" → `listReminders`, (2) "clear all" →
`clearAll`, (3) "clear" and "reminder" → `clearSpecific`, (4) "remind" →
`addReminder`, (5) otherwise `unrecognized` — first match wins, matching
case-insensitively over the lowercased input; in particular every text
containing both "list reminder" and "clear all" resolves to
`listReminders`.  (In the final conjunct for case (5), the absence of
"remind" already rules out "reminder", hence rules out cases (1) and (3),
so failing "remind" and "clear all" is exactly "none of the above".) -/
theorem process_command_priority_order (text : List Char) (hd : plainText text = true) :
    (saysB text (chars "list") = true → saysB text (chars "reminder") = true →
       process_command text = .listReminders) ∧
    (saysB text (chars "clear all") = true →
       ¬(saysB text (chars "list") = true ∧ saysB text (chars "reminder") = true) →
       process_command text = .clearAll) ∧
    (saysB text (chars "clear") = true → saysB text (chars "reminder") = true →
       saysB text (chars "clear all") = false →
       ¬(saysB text (chars "list") = true ∧ saysB text (chars "reminder") = true) →
       process_command text = .clearSpecific text) ∧
    (saysB text (chars "remind") = true → saysB text (chars "clear all") = false →
       ¬(saysB text (chars "list") = true ∧ saysB text (chars "reminder") = true) →
       ¬(saysB text (chars "clear") = true ∧ saysB text (chars "reminder") = true) →
       process_command text = .addReminder text) ∧
    (saysB text (chars "remind") = false → saysB text (chars "clear all") = false →
       process_command text = .unrecognized) ∧
    (saysB text (chars "list reminder") = true → saysB text (chars "clear all") = true →
       process_command text = .listReminders) := by
  have hrr : saysB text (chars "reminder") = true → saysB text (chars "remind") = true :=
    fun h => containsB_trans _ _ _ (by decide) h
  have hlr1 : saysB text (chars "list reminder") = true → saysB text (chars "list") = true :=
    fun h => containsB_trans _ _ _ (by decide) h
  have hlr2 : saysB text (chars "list reminder") = true →
      saysB text (chars "reminder") = true :=
    fun h => containsB_trans _ _ _ (by decide) h
  refine ⟨?_, ?_, ?_, ?_, ?_, ?_⟩
  · intro h1 h2
    simp [process_command, h1, h2]
  · intro hca hnl
    have h12 : (saysB text (chars "list") && saysB text (chars "reminder")) = false := by
      cases hl : saysB text (chars "list") <;> cases hr : saysB text (chars "reminder")
        <;> simp_all
    simp [process_command, h12, hca]
  · intro hc hr hca hnl
    have hl : saysB text (chars "list") = false := by
      cases hlb : saysB text (chars "list")
      · rfl
      · exact absurd ⟨hlb, hr⟩ hnl
    simp [process_command, hl, hca, hc, hr]
  · intro hrem hca hnl hnc
    have hr : saysB text (chars "reminder") = false ∨ (saysB text (chars "list") = false ∧
        saysB text (chars "clear") = false) := by
      cases hrb : saysB text (chars "reminder")
      · exact Or.inl rfl
      · refine Or.inr ⟨?_, ?_⟩
        · cases hl : saysB text (chars "list")
          · rfl
          · exact absurd ⟨hl, hrb⟩ hnl
        · cases hc : saysB text (chars "clear")
          · rfl
          · exact absurd ⟨hc, hrb⟩ hnc
    rcases hr with hr | ⟨hl, hc⟩
    · simp [process_command, hr, hca, hrem]
    · simp [process_command, hl, hc, hca, hrem]
  · intro hrem hca
    have hr : saysB text (chars "reminder") = false := by
      cases hrb : saysB text (chars "reminder")
      · rfl
      · exact absurd (hrr hrb) (by simp [hrem])
    simp [process_command, hr, hca, hrem]
  · intro hlr hca
    simp [process_command, hlr1 hlr, hlr2 hlr]

/-- Witness for C1 at a concrete utterance containing both "list reminder"
and "clear all". -/
theorem process_command_priority_order_check :
    process_command (chars "list reminders and clear all") = Intent.listReminders := by
  have h := process_command_priority_order (chars "list reminders and clear all") (by decide)
  exact h.2.2.2.2.2 (by decide) (by decide)

/-- Claim C2: one sweep of `check_timers` removes exactly the reminders of
kind time with a set trigger at or before `now`, keeps everything else,
preserves the survivors' relative order, and removes nothing when every
time reminder's trigger is strictly in the future. -/
theorem check_timers_removes_exactly_due (now : Int) (rs : List Reminder) :
    (∀ r, r ∈ check_timers now rs ↔
       r ∈ rs ∧ ¬(r.reminder_type = "time" ∧ ∃ t, r.trigger_time = some t ∧ t ≤ now)) ∧
    List.Sublist (check_timers now rs) rs ∧
    ((∀ r ∈ rs, ∀ t, r.reminder_type = "time" → r.trigger_time = some t → now < t) →
       check_timers now rs = rs) := by
  refine ⟨?_, ?_, ?_⟩
  · intro r
    rw [check_timers, List.mem_filter]
    constructor
    · rintro ⟨hmem, hb⟩
      refine ⟨hmem, fun hdue => ?_⟩
      rw [Bool.not_eq_true'] at hb
      exact absurd ((dueB_iff now r).mpr hdue) (by simp [hb])
    · rintro ⟨hmem, hnd⟩
      refine ⟨hmem, ?_⟩
      cases hb : dueB now r
      · rfl
      · exact absurd ((dueB_iff now r).mp hb) hnd
  · exact List.filter_sublist rs
  · intro hall
    rw [check_timers]
    apply List.filter_eq_self.mpr
    intro r hmem
    cases hb : dueB now r
    · rfl
    · rcases (dueB_iff now r).mp hb with ⟨hty, t, htr, hle⟩
      exact absurd hle (not_le.mpr (hall r hmem t hty htr))

/-- Witness for C2: a sweep before the only deadline removes nothing. -/
theorem check_timers_removes_exactly_due_check :
    check_timers 50 [⟨chars "x", "time", some 100, 0⟩] =
      [⟨chars "x", "time", some 100, 0⟩] := by
  have h := check_timers_removes_exactly_due 50 [⟨chars "x", "time", some 100, 0⟩]
  refine h.2.2 ?_
  intro r hmem t hty htr
  simp only [List.mem_singleton] at hmem
  subst hmem
  simp only [Option.some.injEq] at htr
  omega

/-- Claim C3: every utterance matching the time pattern yields a reminder
of kind time whose trigger is exactly `now + minutes` (60 seconds per
minute, no drift), whose body is the utterance with the leading
`remind me (to )?` / `set reminder (to )?` prefix and the trailing
`(in|after) N minutes...` suffix stripped, and whose confirmation
utterance is `Reminder set for N minutes: body`. -/
theorem add_reminder_time_exact (now : Int) (text : List Char) (n : Nat)
    (hd : plainText text = true) (h : searchTime text = some n) :
    (add_reminder now text).1.reminder_type = "time" ∧
    (add_reminder now text).1.trigger_time = some (now + 60 * (n : Int)) ∧
    (add_reminder now text).1.created_at = now ∧
    (add_reminder now text).1.text = pyStrip (stripTimeSuffix (stripRemindPrefixAll text)) ∧
    (add_reminder now text).2 =
      chars "Reminder set for " ++ (Nat.repr n).data ++ chars " minutes: "
        ++ pyStrip (stripTimeSuffix (stripRemindPrefixAll text)) := by
  simp [add_reminder, h]

/-- Witness for C3: the forge scenario at time 0. -/
theorem add_reminder_time_exact_check :
    (add_reminder 0 (chars "remind me to build a forge in 15 minutes")).1.reminder_type
        = "time" ∧
    (add_reminder 0 (chars "remind me to build a forge in 15 minutes")).1.trigger_time
        = some 900 ∧
    (add_reminder 0 (chars "remind me to build a forge in 15 minutes")).1.text
        = chars "build a forge" ∧
    (add_reminder 0 (chars "remind me to build a forge in 15 minutes")).2
        = chars "Reminder set for 15 minutes: build a forge" := by
  have h := add_reminder_time_exact 0 (chars "remind me to build a forge in 15 minutes") 15
    (by decide) (by decide)
  exact ⟨h.1, h.2.1.trans (by decide), h.2.2.2.1.trans (by decide),
    h.2.2.2.2.trans (by decide)⟩

/-- Claim C5: `clear_specific_reminder` removes at most one reminder per
call — precisely the first reminder in store order whose text contains the
extracted keyword case-insensitively (`List.eraseP`) — and with no match it
reports "No matching reminder found." with the store entirely unchanged. -/
theorem clear_specific_at_most_one (rs : List Reminder) (text : List Char)
    (hd : plainText text = true) :
    (clear_specific_reminder rs text).1 = rs.eraseP (matchesKw (clearKeyword text)) ∧
    ((clear_specific_reminder rs text).1.length = rs.length ∨
      (clear_specific_reminder rs text).1.length + 1 = rs.length) ∧
    ((∀ r ∈ rs, matchesKw (clearKeyword text) r = false) →
      clear_specific_reminder rs text = (rs, chars "No matching reminder found.")) := by
  refine ⟨clearLoop_fst_eraseP _ rs, clearLoop_length _ rs, fun hall => ?_⟩
  exact clearLoop_no_match _ rs hall

/-- Witness for C5: clearing with an unmatched keyword leaves a one-element
store untouched. -/
theorem clear_specific_at_most_one_check :
    clear_specific_reminder [⟨chars "scout the coast", "event", none, 0⟩]
        (chars "clear reminder about gold") =
      ([⟨chars "scout the coast", "event", none, 0⟩],
       chars "No matching reminder found.") := by
  have h := clear_specific_at_most_one [⟨chars "scout the coast", "event", none, 0⟩]
    (chars "clear reminder about gold") (by decide)
  exact h.2.2 (by decide)

/-- Counterexample to claim C4: after a successful fetch whose label
matches the target (focus flag true), a fetch failure does NOT leave
`game_mode_active` unchanged — `poll_steam_api` hands `False` to
`update_game_status` on every failure path, so the flag drops to false. -/
theorem fetch_failure_clears_focus_cex :
    (poll_steam_api_step ⟨chars "No game running", false⟩
        (.player (some (chars "Civilization VI")))).game_mode_active = true ∧
    (poll_steam_api_step
        (poll_steam_api_step ⟨chars "No game running", false⟩
          (.player (some (chars "Civilization VI"))))
        .requestError).game_mode_active = false := by
  exact ⟨by decide, rfl⟩

/-- Amended C4: a fetch failure overwrites the activity label with the
degraded string AND resets `game_mode_active` to false (both fields are
always written); a successful fetch whose label contains the target name
sets the flag to true. -/
theorem fetch_failure_updates_label_and_focus (st : GameStatus) (m name : List Char) :
    poll_steam_api_step st .requestError =
      { current_game := chars "Steam API unreachable", game_mode_active := false } ∧
    poll_steam_api_step st (.otherError m) =
      { current_game := chars "Error: " ++ m.take 30, game_mode_active := false } ∧
    (containsB (chars "Civilization VI") name = true →
      (poll_steam_api_step st (.player (some name))).game_mode_active = true) := by
  refine ⟨?_, ?_, fun hc => ?_⟩
  · cases st; rfl
  · cases st; rfl
  · simp [poll_steam_api_step, update_game_status, hc]

/-- Witness for amended C4 at a matching game name. -/
theorem fetch_failure_updates_label_and_focus_check :
    (poll_steam_api_step ⟨chars "none", false⟩
        (.player (some (chars "Civilization VI")))).game_mode_active = true := by
  have h := fetch_failure_updates_label_and_focus ⟨chars "none", false⟩ []
    (chars "Civilization VI")
  exact h.2.2 (by decide)

/-- Counterexample to claim C6: an accepted minute count of zero yields
`trigger_time` EQUAL to `created_at`, not strictly after it. -/
theorem time_reminder_zero_minutes_cex :
    (add_reminder 0 (chars "remind me to x in 0 minutes")).1.reminder_type = "time" ∧
    (add_reminder 0 (chars "remind me to x in 0 minutes")).1.trigger_time =
      some ((add_reminder 0 (chars "remind me to x in 0 minutes")).1.created_at) ∧
    (add_reminder 0 (chars "remind me to x in 0 minutes")).1.created_at = 0 := by
  exact ⟨rfl, by decide, rfl⟩

/-- Amended C6: every reminder built by `add_reminder` has `trigger_time`
set iff its kind is time; for time reminders the trigger is at or after
`created_at`, strictly after exactly when the parsed minute count is
positive (a zero minute count gives `trigger_time = created_at`). -/
theorem reminder_trigger_invariant_amended (now : Int) (text : List Char)
    (hd : plainText text = true) :
    ((add_reminder now text).1.trigger_time.isSome = true ↔
      (add_reminder now text).1.reminder_type = "time") ∧
    (∀ t, (add_reminder now text).1.trigger_time = some t →
      (add_reminder now text).1.created_at ≤ t) ∧
    (∀ n, searchTime text = some n → 0 < n →
      ∀ t, (add_reminder now text).1.trigger_time = some t →
        (add_reminder now text).1.created_at < t) ∧
    (searchTime text = some 0 →
      (add_reminder now text).1.trigger_time =
        some ((add_reminder now text).1.created_at)) := by
  cases hs : searchTime text with
  | some n =>
    refine ⟨by simp [add_reminder, hs], ?_, ?_, ?_⟩
    · intro t ht
      simp only [add_reminder, hs, Option.some.injEq] at ht
      simp only [add_reminder, hs]
      have : (0 : Int) ≤ 60 * (n : Int) := by positivity
      omega
    · intro n2 hs2 hpos t ht
      injection hs2 with hn
      rw [← hn] at hpos
      simp only [add_reminder, hs, Option.some.injEq] at ht
      simp only [add_reminder, hs]
      have : (1 : Int) ≤ (n : Int) := by exact_mod_cast hpos
      omega
    · intro h0
      injection h0 with hn
      simp [add_reminder, hs, hn]
  | none =>
    by_cases hany :
        resourceKeywords.any
          (fun w => containsB w (lowerStr (pyStrip (stripGreedyRemindMe text)))) = true
    · refine ⟨by simp [add_reminder, hs, hany], ?_, ?_, ?_⟩
      · intro t ht
        simp [add_reminder, hs, hany] at ht
      · intro n hs2
        exact absurd hs2 (by simp)
      · intro h0
        exact absurd h0 (by simp)
    · refine ⟨by simp [add_reminder, hs, hany], ?_, ?_, ?_⟩
      · intro t ht
        simp [add_reminder, hs, hany] at ht
      · intro n hs2
        exact absurd hs2 (by simp)
      · intro h0
        exact absurd h0 (by simp)

/-- Witness for amended C6: two minutes yields a trigger strictly after
creation. -/
theorem reminder_trigger_invariant_amended_check :
    (add_reminder 5 (chars "remind me to y in 2 minutes")).1.created_at < 125 := by
  have h := reminder_trigger_invariant_amended 5 (chars "remind me to y in 2 minutes")
    (by decide)
  exact h.2.2.1 2 (by decide) (by decide) 125 (by decide)

/-- Counterexample to claim C7: a failing write inside `save_config`
propagates out of the mutating operation as an exception — control does
not return normally and nothing handles (or logs) the failure. -/
theorem save_failure_propagates_cex :
    (add_reminder_op 0 (chars "remind me to x") [] (.ioError (chars "disk full"))).2 =
      Except.error (chars "disk full") ∧
    (add_reminder_op 0 (chars "remind me to x") [] (.ioError (chars "disk full"))).2 ≠
      Except.ok () := by
  exact ⟨rfl, fun h => Except.noConfusion h⟩

/-- Amended C7: the in-memory store mutation made before the save stands
whatever the write outcome, but a save failure propagates as an exception
(`save_config` has no handler); a load failure or missing file at startup
falls back to the default document instead of aborting. -/
theorem persistence_failure_behavior (now : Int) (text : List Char)
    (store : List Reminder) (m : List Char) :
    (add_reminder_op now text store (.ioError m)).1 =
      store ++ [(add_reminder now text).1] ∧
    (add_reminder_op now text store (.ioError m)).2 = Except.error m ∧
    load_config .readError = defaultConfig ∧
    load_config .absent = defaultConfig := by
  exact ⟨rfl, rfl, rfl, rfl⟩

/-- Counterexample to claim C8: a reminder 90 seconds overdue is announced
as "-1 minutes" (truncation toward zero), while the mathematical floor of
the remaining -1.5 minutes is -2. -/
theorem overdue_minutes_not_floor_cex :
    list_reminders_voice 90 [⟨chars "x", "time", some 0, 0⟩] =
      [chars "You have 1 reminder.", chars "1. In -1 minutes: x"] ∧
    Int.fdiv (0 - 90) 60 = -2 ∧ ((-1 : Int) ≠ -2) := by
  exact ⟨by decide, by decide, by decide⟩

/-- Amended C8: the readback announces `(trigger_time - now) / 60`
truncated toward zero (`Int.tdiv`, Python's `int()`); this agrees with the
mathematical floor (`Int.fdiv`) whenever `trigger_time` is at or after
`now`, but not in general for overdue reminders. -/
theorem list_reminders_minutes_trunc (now t ca : Int) (txt : List Char) :
    list_reminders_voice now [⟨txt, "time", some t, ca⟩] =
      [chars "You have 1 reminder.",
       (Nat.repr 1).data ++ chars ". In " ++ (Int.repr (Int.tdiv (t - now) 60)).data
         ++ chars " minutes: " ++ txt] ∧
    (now ≤ t → Int.tdiv (t - now) 60 = Int.fdiv (t - now) 60) := by
  constructor
  · rw [list_reminders_voice, if_neg (by simp)]
    congr 1
    · simp only [List.length_singleton]
      rfl
  · intro hle
    exact tdiv_eq_fdiv_of_nonneg _ _ (by omega) (by omega)

/-- Witness for amended C8 at a future trigger: truncation and floor
agree. -/
theorem list_reminders_minutes_trunc_check :
    Int.tdiv (90 - 0) 60 = Int.fdiv (90 - 0) 60 ∧
    list_reminders_voice 0 [⟨chars "y", "time", some 90, 0⟩] =
      [chars "You have 1 reminder.",
       (Nat.repr 1).data ++ chars ". In " ++ (Int.repr (Int.tdiv (90 - 0) 60)).data
         ++ chars " minutes: " ++ chars "y"] := by
  have h := list_reminders_minutes_trunc 0 90 0 (chars "y")
  exact ⟨h.2 (by omega), h.1⟩

/-- Claim C9: a remind utterance without a time pattern produces a
reminder whose kind is resource exactly when the stripped body contains a
configured resource keyword case-insensitively, and event otherwise; a
resource reminder's confirmation utterance mentions the manual trigger. -/
theorem add_reminder_resource_iff_keyword (now : Int) (text : List Char)
    (hd : plainText text = true) (h : searchTime text = none) :
    (add_reminder now text).1.text = pyStrip (stripGreedyRemindMe text) ∧
    ((add_reminder now text).1.reminder_type = "resource" ↔
      ∃ w ∈ resourceKeywords,
        containsB w (lowerStr (pyStrip (stripGreedyRemindMe text))) = true) ∧
    ((add_reminder now text).1.reminder_type = "resource" ∨
      (add_reminder now text).1.reminder_type = "event") ∧
    ((add_reminder now text).1.reminder_type = "resource" →
      containsB (chars "trigger") ((add_reminder now text).2) = true) := by
  cases hany : resourceKeywords.any
      (fun w => containsB w (lowerStr (pyStrip (stripGreedyRemindMe text)))) with
  | true =>
    have hty : (add_reminder now text).1.reminder_type = "resource" := by
      simp [add_reminder, h, hany]
    refine ⟨by simp [add_reminder, h, hany], ?_, Or.inl hty, ?_⟩
    · rw [hty]
      constructor
      · intro _
        simpa using List.any_eq_true.mp hany
      · intro _
        rfl
    · intro _
      have hutt : (add_reminder now text).2 =
          chars "Resource reminder set: " ++ pyStrip (stripGreedyRemindMe text)
            ++ chars ". Say " ++ [apos] ++ chars "trigger" ++ [apos]
            ++ chars " to activate." := by
        simp [add_reminder, h, hany]
      rw [hutt]
      refine (containsB_iff _ _).mpr
        ⟨chars "Resource reminder set: " ++ pyStrip (stripGreedyRemindMe text)
           ++ chars ". Say " ++ [apos],
         [apos] ++ chars " to activate.", by simp⟩
  | false =>
    have hty : (add_reminder now text).1.reminder_type = "event" := by
      simp [add_reminder, h, hany]
    refine ⟨by simp [add_reminder, h, hany], ?_, Or.inr hty, ?_⟩
    · rw [hty]
      constructor
      · intro hcontra
        exact absurd hcontra (by decide)
      · intro hex
        have hc := List.any_eq_true.mpr (by simpa using hex)
        rw [hany] at hc
        exact Bool.noConfusion hc
    · intro hr
      rw [hty] at hr
      exact absurd hr (by decide)

/-- Witness for C9: the gold scenario. -/
theorem add_reminder_resource_iff_keyword_check :
    (add_reminder 0 (chars "remind me to watch for 500 gold")).1.reminder_type
        = "resource" ∧
    (add_reminder 0 (chars "remind me to watch for 500 gold")).1.text
        = chars "watch for 500 gold" ∧
    containsB (chars "trigger")
        ((add_reminder 0 (chars "remind me to watch for 500 gold")).2) = true := by
  have h := add_reminder_resource_iff_keyword 0 (chars "remind me to watch for 500 gold")
    (by decide) (by decide)
  have hres : (add_reminder 0 (chars "remind me to watch for 500 gold")).1.reminder_type
      = "resource" :=
    h.2.1.mpr ⟨chars "gold", by decide, by decide⟩
  exact ⟨hres, h.1.trans (by decide), h.2.2.2 hres⟩

/-- Claim C10 (implicit): when the routed utterance does not contain the
contiguous phrase "clear reminder", the regex stripping step of
`clear_specific_reminder` leaves the text unchanged, so the search keyword
is the whole (trimmed) utterance and a reminder is removed only when its
text contains that whole utterance case-insensitively; in practice a
command like "clear the forge reminder" therefore reports no match. -/
theorem clear_specific_whole_text_keyword (text : List Char)
    (hd : plainText text = true)
    (hno : containsB (chars "clear reminder") (lowerStr text) = false) :
    clearKeywordRaw text = text ∧
    clearKeyword text = pyStrip text ∧
    (pyStrip text = text →
      ∀ rs : List Reminder, (clear_specific_reminder rs text).1 =
        rs.eraseP (fun r => containsB (lowerStr text) (lowerStr r.text))) ∧
    clear_specific_reminder [⟨chars "build a forge", "event", none, 0⟩]
        (chars "clear the forge reminder") =
      ([⟨chars "build a forge", "event", none, 0⟩],
       chars "No matching reminder found.") := by
  have hlast : lastClearTail text = none := by
    cases hl : lastClearTail text with
    | none => rfl
    | some r => exact absurd (lastClearTail_contains text r hl) (by simp [hno])
  have hraw : clearKeywordRaw text = text := by
    rw [clearKeywordRaw, hlast]
  refine ⟨hraw, ?_, ?_, by decide⟩
  · rw [clearKeyword, hraw]
  · intro hstrip rs
    have hkw : clearKeyword text = text := by rw [clearKeyword, hraw, hstrip]
    rw [clear_specific_reminder, hkw, clearLoop_fst_eraseP]
    rfl

/-- Witness for C10 at a concrete no-"clear reminder" utterance. -/
theorem clear_specific_whole_text_keyword_check :
    clearKeywordRaw (chars "clear my quest reminder") = chars "clear my quest reminder" ∧
    (clear_specific_reminder [⟨chars "scout north", "event", none, 0⟩]
        (chars "clear my quest reminder")).1 =
      [⟨chars "scout north", "event", none, 0⟩].eraseP
        (fun r => containsB (lowerStr (chars "clear my quest reminder"))
          (lowerStr r.text)) := by
  have h := clear_specific_whole_text_keyword (chars "clear my quest reminder")
    (by decide) (by decide)
  exact ⟨h.1, h.2.2.1 (by decide) _⟩
